import Mathlib

/-!
Verification development for the `tjenare` web server (package `mediator`,
`config`): request mediation between reverse-proxy backends and static file
serving, host parsing by public-suffix rules, and TLS certificate caching.

The Go source in `mediator/mediator.go` and `config/config.go` is embedded
shallowly: Go strings become Lean `String`, Go stdlib string/path helpers
(`strings.Split`, `strings.TrimSuffix`, `path/filepath.Clean`, ...) are
modelled as executable Lean functions over the character lists of those
strings, Go maps become association lists, and the filesystem is an explicit
parameter.
-/

namespace Tjenare

/-! ### Models of Go stdlib string functions -/

/-- Split a character list at every occurrence of `sep`.
Model of Go `strings.Split` (on a one-character separator), at the level of
the character list: always returns at least one (possibly empty) part. -/
def splitCharList (sep : Char) : List Char → List (List Char)
  | [] => [[]]
  | c :: cs =>
    match splitCharList sep cs with
    | [] => [[]]
    | h :: t => if c = sep then [] :: h :: t else (c :: h) :: t

/-- Rejoin parts with the separator: the inverse of `splitCharList`. -/
def joinSep (sep : Char) : List (List Char) → List Char
  | [] => []
  | [x] => x
  | x :: y :: t => x ++ sep :: joinSep sep (y :: t)

theorem splitCharList_ne_nil (sep : Char) (l : List Char) :
    splitCharList sep l ≠ [] := by
  cases l with
  | nil => simp [splitCharList]
  | cons c cs =>
    simp only [splitCharList]
    cases h : splitCharList sep cs with
    | nil => simp
    | cons h t =>
      by_cases hc : c = sep <;> simp [hc]

theorem joinSep_splitCharList (sep : Char) (l : List Char) :
    joinSep sep (splitCharList sep l) = l := by
  induction l with
  | nil => rfl
  | cons c cs ih =>
    simp only [splitCharList]
    cases h : splitCharList sep cs with
    | nil => exact absurd h (splitCharList_ne_nil sep cs)
    | cons hd tl =>
      rw [h] at ih
      by_cases hc : c = sep
      · subst hc
        simp only [if_pos rfl, joinSep]
        cases tl <;> simp_all [joinSep]
      · simp only [if_neg hc, joinSep]
        cases tl <;> simp_all [joinSep]

theorem mem_splitCharList_not_mem (sep : Char) (l : List Char) :
    ∀ p ∈ splitCharList sep l, sep ∉ p := by
  induction l with
  | nil => simp [splitCharList]
  | cons c cs ih =>
    intro p hp
    simp only [splitCharList] at hp
    split at hp
    · rename_i heq
      exact absurd heq (splitCharList_ne_nil sep cs)
    · rename_i hd tl heq
      rw [heq] at ih
      by_cases hc : c = sep
      · rw [if_pos hc] at hp
        simp only [List.mem_cons] at hp
        rcases hp with rfl | hp
        · simp
        · exact ih p (List.mem_cons.mpr hp)
      · rw [if_neg hc] at hp
        simp only [List.mem_cons] at hp
        rcases hp with rfl | hp
        · intro hmem
          rcases List.mem_cons.mp hmem with h | h
          · exact hc h.symm
          · exact ih hd (List.mem_cons_self hd tl) h
        · exact ih p (List.mem_cons.mpr (Or.inr hp))

theorem joinSep_append (sep : Char) (xs ys : List (List Char))
    (hx : xs ≠ []) (hy : ys ≠ []) :
    joinSep sep (xs ++ ys) = joinSep sep xs ++ sep :: joinSep sep ys := by
  induction xs with
  | nil => exact absurd rfl hx
  | cons x xt ih =>
    cases xt with
    | nil =>
      cases ys with
      | nil => exact absurd rfl hy
      | cons y yt => simp [joinSep]
    | cons x' xt' =>
      have h2 := ih (by simp)
      simp only [List.cons_append] at h2 ⊢
      simp only [joinSep]
      rw [h2]
      simp [joinSep]

/-- Model of Go `strings.Split(s, sep)` for a one-character separator. -/
def goSplit (sep : Char) (s : String) : List String :=
  (splitCharList sep s.data).map fun l => ⟨l⟩

/-- Model of Go `strings.Join(parts, sep)` for a one-character separator. -/
def goJoin (sep : Char) (parts : List String) : String :=
  ⟨joinSep sep (parts.map String.data)⟩

/-- Model of Go `strings.HasSuffix`. -/
def goHasSuffix (s suffix : String) : Bool :=
  suffix.data.isSuffixOf s.data

/-- Model of Go `strings.TrimSuffix`: drop `suffix` from the end of `s`
when present, else return `s` unchanged. -/
def goTrimSuffix (s suffix : String) : String :=
  if goHasSuffix s suffix then ⟨s.data.take (s.data.length - suffix.data.length)⟩
  else s

theorem goHasSuffix_append (a b : String) : goHasSuffix (a ++ b) b = true := by
  simp [goHasSuffix, List.isSuffixOf_iff_suffix, String.data_append]

theorem goTrimSuffix_append (a b : String) : goTrimSuffix (a ++ b) b = a := by
  simp only [goTrimSuffix, goHasSuffix_append, if_pos]
  apply String.ext
  simp [String.data_append]

/-! ### Model of Go `path/filepath` (Unix separator `/`) -/

/-- Whether the path begins with the separator (Go `os.IsPathSeparator(path[0])`). -/
def isRooted (p : String) : Bool :=
  match p.data with
  | [] => false
  | c :: _ => c = '/'

/-- The element-processing loop of Go `path/filepath.Clean`, acting on the
`/`-separated segments of the path; `acc` is the output stack, in reverse
order.  Empty and `.` elements are dropped; `..` pops a non-`..` stack
entry, is dropped at the root of a rooted path, and is kept otherwise. -/
def cleanSegs (rooted : Bool) (acc : List String) : List String → List String
  | [] => acc.reverse
  | seg :: rest =>
    if seg = "" ∨ seg = "." then cleanSegs rooted acc rest
    else if seg = ".." then
      match acc with
      | [] => if rooted then cleanSegs rooted [] rest else cleanSegs rooted [".."] rest
      | top :: accRest =>
        if top = ".." then cleanSegs rooted (".." :: top :: accRest) rest
        else cleanSegs rooted accRest rest
    else cleanSegs rooted (seg :: acc) rest

/-- Model of Go `path/filepath.Clean`: normalize a path by collapsing
repeated separators and `.`/`..` elements; the empty result becomes `.`
(or `/` for a rooted path). -/
def filepathClean (p : String) : String :=
  match cleanSegs (isRooted p) [] (goSplit '/' p) with
  | [] => if isRooted p then "/" else "."
  | s :: rest =>
    (if isRooted p then "/" else "") ++ goJoin '/' (s :: rest)

/-- Model of Go `path/filepath.Join`: join the elements from the first
non-empty one with `/` and `Clean` the result; all-empty input gives `""`. -/
def filepathJoin (elems : List String) : String :=
  match elems.dropWhile (· = "") with
  | [] => ""
  | e :: rest => filepathClean (goJoin '/' (e :: rest))

/-- Model of Go `path/filepath.Dir`: everything up to and including the final
separator, then `Clean`ed ( `.` when there is no directory part). -/
def filepathDir (p : String) : String :=
  filepathClean ⟨(p.data.reverse.dropWhile (· ≠ '/')).reverse⟩

/-- Walk the reversed character list of a path looking for the final `.` of
the final element, accumulating the characters already passed. -/
def filepathExtAux (seen : List Char) : List Char → List Char
  | [] => []
  | c :: rest =>
    if c = '/' then []
    else if c = '.' then c :: seen
    else filepathExtAux (c :: seen) rest

/-- Model of Go `path/filepath.Ext`: the suffix of the final element starting
at its final dot, or `""` when the final element has no dot. -/
def filepathExt (p : String) : String :=
  ⟨filepathExtAux [] p.data.reverse⟩

/-- Model of the builtin table of Go `mime.TypeByExtension` (the system mime
files that Go merges in are not modelled); returns `""` for an unknown
extension, which the caller treats as "no mapping". -/
def mimeTypeByExtension (ext : String) : String :=
  if ext = ".avif" then "image/avif"
  else if ext = ".css" then "text/css; charset=utf-8"
  else if ext = ".gif" then "image/gif"
  else if ext = ".htm" then "text/html; charset=utf-8"
  else if ext = ".html" then "text/html; charset=utf-8"
  else if ext = ".jpeg" then "image/jpeg"
  else if ext = ".jpg" then "image/jpeg"
  else if ext = ".js" then "text/javascript; charset=utf-8"
  else if ext = ".json" then "application/json"
  else if ext = ".mjs" then "text/javascript; charset=utf-8"
  else if ext = ".pdf" then "application/pdf"
  else if ext = ".png" then "image/png"
  else if ext = ".svg" then "image/svg+xml"
  else if ext = ".wasm" then "application/wasm"
  else if ext = ".webp" then "image/webp"
  else if ext = ".xml" then "text/xml; charset=utf-8"
  else ""

/-! ### Model of `golang.org/x/net/publicsuffix` -/

/-- The public suffix list, as the set of its rules; each rule is a list of
labels (wildcard and exception rules are not modelled). -/
structure PSL where
  rules : List (List String)

/-- Model of `publicsuffix.PublicSuffix` restricted to plain rules, on the
label list of the host: the longest rule that is a suffix of the labels, with
the default rule (the final label alone) when none matches. -/
def publicSuffixLabels (psl : PSL) (labels : List String) : List String :=
  psl.rules.foldl
    (fun best r =>
      if r.isSuffixOf labels ∧ best.length < r.length then r else best)
    (labels.drop (labels.length - 1))

/-- Model of `publicsuffix.EffectiveTLDPlusOne`: reject hosts with an empty
label (leading/trailing dot, `..`, empty host), reject hosts equal to their
public suffix, and otherwise return the public suffix plus one label. -/
def effectiveTLDPlusOne (psl : PSL) (host : String) : Except String String :=
  let labels := goSplit '.' host
  if labels.contains "" then .error ("empty label in domain " ++ host)
  else
    let suffix := publicSuffixLabels psl labels
    if labels.length ≤ suffix.length then
      .error ("cannot derive eTLD+1 for domain " ++ host)
    else
      .ok (goJoin '.' (labels.drop (labels.length - suffix.length - 1)))

/-! ### `Mediator.parseRequest` (mediator.go lines 80-89) -/

/-- `strings.Split(r.Host, ":")[0]`: the host header up to the first colon. -/
def stripPort (hostHeader : String) : String :=
  match goSplit ':' hostHeader with
  | [] => ""
  | h :: _ => h

/-- Embedding of `Mediator.parseRequest`: strip the port from the host
header, resolve the registrable domain with the public-suffix list, and trim
domain and trailing dot from the host to obtain the subdomain. -/
def parseRequest (psl : PSL) (hostHeader : String) :
    Except String (String × String) :=
  let host := stripPort hostHeader
  match effectiveTLDPlusOne psl host with
  | .error e => .error ("could not parse request into pieces: " ++ e)
  | .ok domain =>
    let subdomain := goTrimSuffix (goTrimSuffix host domain) "."
    .ok (domain, subdomain)

/-! ### HTTP-date formatting (model of Go `time.Time.Format(http.TimeFormat)`) -/

def pad2 (n : Nat) : String := if n < 10 then "0" ++ toString n else toString n

def weekdayName : Nat → String
  | 0 => "Sun" | 1 => "Mon" | 2 => "Tue" | 3 => "Wed" | 4 => "Thu" | 5 => "Fri"
  | _ => "Sat"

def monthName : Nat → String
  | 1 => "Jan" | 2 => "Feb" | 3 => "Mar" | 4 => "Apr" | 5 => "May" | 6 => "Jun"
  | 7 => "Jul" | 8 => "Aug" | 9 => "Sep" | 10 => "Oct" | 11 => "Nov" | _ => "Dec"

/-- Gregorian date from days since 1970-01-01 (non-negative). -/
def civilFromDays (z : Nat) : Nat × Nat × Nat :=
  let z' := z + 719468
  let era := z' / 146097
  let doe := z' % 146097
  let yoe := (doe - doe / 1460 + doe / 36524 - doe / 146097) / 365
  let y := yoe + era * 400
  let doy := doe - (365 * yoe + yoe / 4 - yoe / 100)
  let mp := (5 * doy + 2) / 153
  let d := doy - (153 * mp + 2) / 5 + 1
  let m := if mp < 10 then mp + 3 else mp - 9
  (if m ≤ 2 then y + 1 else y, m, d)

/-- Format a modification time (seconds since the Unix epoch) in the
`http.TimeFormat` layout `Mon, 02 Jan 2006 15:04:05 GMT`. -/
def formatHTTPDate (t : Nat) : String :=
  let days := t / 86400
  let secs := t % 86400
  match civilFromDays days with
  | (y, m, d) =>
    weekdayName ((days + 4) % 7) ++ ", " ++ pad2 d ++ " " ++ monthName m ++ " " ++
      toString y ++ " " ++ pad2 (secs / 3600) ++ ":" ++ pad2 (secs % 3600 / 60) ++
      ":" ++ pad2 (secs % 60) ++ " GMT"

/-! ### Data model (config.go) -/

/-- The compiled `*tls.Config` built at mediator.go lines 150-153; a loaded
certificate is identified by the number `FileSystem.loadKeyPair` returns. -/
structure TLSConfig where
  certificates : List Nat
  nextProtos : List String
  deriving DecidableEq, Repr

/-- `config.BackendConfig`: the raw target plus the two lazily populated
cache fields (`URL`, `ReverseProxy`), modelled by their presence. -/
structure BackendConfig where
  target : String
  url : Option Unit
  reverseProxy : Option Unit
  deriving DecidableEq, Repr

/-- `config.DomainConfig`.  Go maps become association lists. -/
structure DomainConfig where
  basePath : String
  default : String
  subdir : String
  certFile : String
  /-- `CertTime`: seconds since the Unix epoch; `0` (1970) until first use. -/
  certTime : Nat
  certConfig : Option TLSConfig
  keyFile : String
  /-- Modelled from the spec: the "index fallback enabled" flag of
  `DomainConfig`; it is read at mediator.go line 195 but its declaration is
  in a `config.go` revision not present in this tree. -/
  indexFallback : Bool
  backends : List (String × BackendConfig)
  deriving DecidableEq, Repr

/-- `config.ServerConfig`. -/
structure ServerConfig where
  tlsPort : Nat
  insecurePort : Nat
  logFile : String
  domains : List (String × DomainConfig)
  deriving DecidableEq, Repr

/-! ### Filesystem and response models -/

/-- Outcome class of a failed `os.Stat`: Go distinguishes the
`os.IsNotExist` errors from every other stat error. -/
inductive StatError
  | notExist
  | ioError
  deriving DecidableEq, Repr

/-- The fields of `os.FileInfo` the mediator reads. -/
structure FileInfo where
  size : Nat
  modTime : Nat
  isDir : Bool
  deriving DecidableEq, Repr

/-- The filesystem as the mediator observes it: `stat`, `os.Open`
success (which can fail despite a successful stat, racing a deletion),
regular-file contents, and `tls.LoadX509KeyPair` (`none` on load/parse
failure, otherwise an identifier of the loaded pair). -/
structure FileSystem where
  stat : String → Except StatError FileInfo
  openOk : String → Bool
  content : String → String
  loadKeyPair : String → String → Option Nat

/-- The observable effect of a handler on its `http.ResponseWriter`:
every `WriteHeader` call in order, the headers set, and the body bytes. -/
structure Response where
  statusWrites : List Nat
  headers : List (String × String)
  body : String
  deriving DecidableEq, Repr

def Response.empty : Response := ⟨[], [], ""⟩

/-- Model of `http.ResponseWriter.WriteHeader`: record the status code. -/
def Response.writeHeader (r : Response) (status : Nat) : Response :=
  { r with statusWrites := r.statusWrites ++ [status] }

/-- Model of `http.ResponseWriter.Write`: net/http sends an implicit
`200 OK` when a body is written before any explicit `WriteHeader`. -/
def Response.write (r : Response) (b : String) : Response :=
  let r := if r.statusWrites = [] then { r with statusWrites := [200] } else r
  { r with body := r.body ++ b }

/-- `Header().Set`: replace the value of the key, or append the pair. -/
def setHeaderList : List (String × String) → String → String → List (String × String)
  | [], k, v => [(k, v)]
  | (k', v') :: rest, k, v =>
    if k' = k then (k, v) :: rest else (k', v') :: setHeaderList rest k v

def Response.setHeader (r : Response) (k v : String) : Response :=
  { r with headers := setHeaderList r.headers k v }

def notExistBody : String := "The requested file does not exist"
def notOpenedBody : String := "The requested file could not be opened"
def serverErrorBody : String := "An error was encountered while processing your request."
def proxyErrorBody : String := "SOMETHING ERROR HAPPEN"

/-- The 404 response of `serveFile` (mediator.go lines 198-199, 211-212,
220-221). -/
def write404 (w : Response) : Response :=
  (w.writeHeader 404).write notExistBody

def write500 (w : Response) : Response :=
  (w.writeHeader 500).write serverErrorBody

/-! ### `Mediator.serveFile` (mediator.go lines 184-260) -/

/-- Result of one `serveFile` call: the response so far, the returned retry
flag, and `r.URL.Path` after the call (the index fallback mutates it). -/
structure ServeFileResult where
  response : Response
  retry : Bool
  reqPath : String
  deriving DecidableEq, Repr

/-- The candidate filesystem path `serveFile` stats (mediator.go lines
185-190): append `index.html` to a trailing-slash request path, join it
under base path, subdomain and subdirectory, and normalize. -/
def servePath (domconfig : DomainConfig) (subdomain : String) (reqPath : String) :
    String :=
  let path0 := if goHasSuffix reqPath "/" then reqPath ++ "index.html" else reqPath
  filepathClean
    (filepathJoin [domconfig.basePath, subdomain, domconfig.subdir, path0])

/-- Embedding of `Mediator.serveFile`.  A mid-stream `io.Copy` failure only
truncates the already-committed response and is not modelled: a successful
open streams the whole file. -/
def serveFile (fs : FileSystem) (domconfig : DomainConfig) (subdomain : String)
    (w : Response) (reqPath : String) : ServeFileResult :=
  let path := servePath domconfig subdomain reqPath
  match fs.stat path with
  | .error .notExist =>
    if domconfig.indexFallback then
      if goHasSuffix reqPath "/index.html" then
        { response := write404 w, retry := false, reqPath := reqPath }
      else
        { response := w, retry := true,
          reqPath := filepathDir reqPath ++ "/index.html" }
    else
      { response := write404 w, retry := false, reqPath := reqPath }
  | .error .ioError =>
    { response := write404 w, retry := false, reqPath := reqPath }
  | .ok fileInfo =>
    let dirStep : String × Except StatError FileInfo :=
      if fileInfo.isDir then
        (path ++ "/index.html", fs.stat (path ++ "/index.html"))
      else (path, .ok fileInfo)
    match dirStep with
    | (_, .error _) =>
      { response := write404 w, retry := false, reqPath := reqPath }
    | (path, .ok fileInfo) =>
      if fs.openOk path then
        let w := w.setHeader "Content-Length" (toString fileInfo.size)
        let w := w.setHeader "Last-Modified" (formatHTTPDate fileInfo.modTime)
        let contentType := mimeTypeByExtension (filepathExt path)
        let w := if contentType ≠ "" then w.setHeader "Content-Type" contentType else w
        { response := w.write (fs.content path), retry := false, reqPath := reqPath }
      else
        { response := (w.writeHeader 404).write notOpenedBody, retry := false,
          reqPath := reqPath }

/-! ### Reverse proxy (mediator.go lines 91-116, 164-182) -/

/-- A Go `error` as `errors.Is(err, context.Canceled)` sees it. -/
structure GoError where
  isCanceled : Bool
  msg : String
  deriving DecidableEq, Repr

/-- Embedding of the `ErrorHandler` closure built in
`Mediator.createReverseProxy` (mediator.go lines 106-113). -/
def proxyErrorHandler (backendTarget remoteAddr : String) (err : GoError)
    (w : Response) (logs : List String) : Response × List String :=
  if err.isCanceled then (w, logs)
  else
    ((w.writeHeader 502).write proxyErrorBody,
     logs ++ ["[" ++ remoteAddr ++ "] " ++ backendTarget ++ " error: " ++ err.msg])

/-- Behavior of the external collaborators of `handoff`: whether
`net/url.Parse` accepts a target string, and how the proxied round trip for
the request ends — the upstream's status and body on success, or the error
(possibly a client cancellation) handed to the proxy's `ErrorHandler`. -/
structure Env where
  urlParse : String → Bool
  proxyOutcome : Except GoError (Nat × String)

/-- Model of `httputil.ReverseProxy.ServeHTTP` with the error handler the
repository installs: a successful round trip writes the upstream's status
and body; a failed one runs the `ErrorHandler` of `createReverseProxy`,
which writes nothing on a client cancellation and a 502 otherwise.  The
remote address and the log sink, which the dispatch model does not track,
are passed empty. -/
def proxyServe (env : Env) (target : String) (w : Response) : Response :=
  match env.proxyOutcome with
  | .ok (status, body) => (w.writeHeader status).write body
  | .error err => (proxyErrorHandler target "" err w []).1

/-- How many status codes one proxied dispatch commits under the modelled
round-trip outcome: one, except for a client-cancelled round trip, where
the error handler writes none. -/
def proxyWriteCount (env : Env) : Nat :=
  match env.proxyOutcome with
  | .ok _ => 1
  | .error err => if err.isCanceled then 0 else 1

/-- Result of `Mediator.handoff`: its boolean return (`handled`), the
response, whether `ReverseProxy.ServeHTTP` ran, and the backend record with
its cache fields as the call leaves them. -/
structure HandoffResult where
  handled : Bool
  response : Response
  proxied : Bool
  backend : Option BackendConfig
  deriving DecidableEq, Repr

/-- Embedding of `Mediator.handoff` (with `createReverseProxy` inlined):
no matching backend refuses the handoff; otherwise the proxy handle is
taken from the cache or built — building fails only when no URL is cached
and the target does not parse, which answers 500 and still returns true. -/
def handoff (env : Env) (domconfig : DomainConfig) (subdomain : String)
    (w : Response) : HandoffResult :=
  match List.lookup subdomain domconfig.backends with
  | none => ⟨false, w, false, none⟩
  | some backend =>
    if backend.reverseProxy.isSome then
      ⟨true, proxyServe env backend.target w, true, some backend⟩
    else if backend.url.isSome || env.urlParse backend.target then
      ⟨true, proxyServe env backend.target w, true,
        some { backend with url := some (), reverseProxy := some () }⟩
    else
      ⟨true, write500 w, false, some backend⟩

/-! ### `Mediator.ServeHTTP` (mediator.go lines 47-78) -/

/-- What a whole dispatch did: the final response, how many times the file
resolver (`serveFile`) ran, and whether the reverse proxy served. -/
structure DispatchResult where
  response : Response
  fileResolverCalls : Nat
  proxied : Bool
  deriving DecidableEq, Repr

/-- The file-dispatch tail of `ServeHTTP` (lines 74-77): call `serveFile`,
and on a retry signal call it once more on the rewritten path, ignoring the
second call's retry signal.  Also counts the resolver invocations. -/
def serveFileDispatch (fs : FileSystem) (domconfig : DomainConfig)
    (subdomain : String) (w : Response) (reqPath : String) : Response × Nat :=
  let r1 := serveFile fs domconfig subdomain w reqPath
  if r1.retry then
    let r2 := serveFile fs domconfig subdomain r1.response r1.reqPath
    (r2.response, 2)
  else (r1.response, 1)

/-- Embedding of `Mediator.ServeHTTP`: parse the host header, look the
domain up, substitute the default subdomain, try the backend handoff, and
otherwise serve a file with at most one index-fallback retry. -/
def serveHTTP (env : Env) (cfg : ServerConfig) (psl : PSL) (fs : FileSystem)
    (hostHeader reqPath : String) : DispatchResult :=
  match parseRequest psl hostHeader with
  | .error _ => ⟨write500 Response.empty, 0, false⟩
  | .ok (domain, subdomain0) =>
    match List.lookup domain cfg.domains with
    | none => ⟨write500 Response.empty, 0, false⟩
    | some domconfig =>
      let subdomain := if subdomain0 = "" then domconfig.default else subdomain0
      let h := handoff env domconfig subdomain Response.empty
      if h.handled then ⟨h.response, 0, h.proxied⟩
      else
        let fr := serveFileDispatch fs domconfig subdomain h.response reqPath
        ⟨fr.1, fr.2, false⟩

/-! ### `Mediator.getConfigForClient` (mediator.go lines 118-158) -/

inductive TLSError
  | missingServerName
  | unknownDomain
  | certStat
  | certLoad
  deriving DecidableEq, Repr

/-- The domain `getConfigForClient` looks up: a `publicsuffix` failure is
only logged in the source (mediator.go lines 122-125), so the lookup then
proceeds with the zero-value domain `""`. -/
def resolvedHandshakeDomain (psl : PSL) (serverName : String) : String :=
  match effectiveTLDPlusOne psl serverName with
  | .ok d => d
  | .error _ => ""

/-- The certificate-cache step of `getConfigForClient` (mediator.go lines
133-157): stat the certificate file, discard the cached configuration and
advance the stored timestamp when it is older than the file, load the key
pair when no configuration is cached, and return the cached configuration.
Returns the configuration, the domain entry with its cache fields as the
call leaves them, and how many times `tls.LoadX509KeyPair` ran. -/
def refreshCert (fs : FileSystem) (domconf : DomainConfig) :
    Except TLSError (TLSConfig × DomainConfig × Nat) :=
  match fs.stat domconf.certFile with
  | .error _ => .error .certStat
  | .ok info =>
    let domconf :=
      if domconf.certTime < info.modTime then
        { domconf with certConfig := none, certTime := info.modTime }
      else domconf
    match domconf.certConfig with
    | some c => .ok (c, domconf, 0)
    | none =>
      match fs.loadKeyPair domconf.certFile domconf.keyFile with
      | none => .error .certLoad
      | some cert =>
        let c : TLSConfig := ⟨[cert], ["h2", "http/1.1"]⟩
        .ok (c, { domconf with certConfig := some c }, 1)

/-- Embedding of `Mediator.getConfigForClient`: reject a missing server
name, resolve and look up the domain, then run the certificate cache. -/
def getConfigForClient (cfg : ServerConfig) (psl : PSL) (fs : FileSystem)
    (serverName : String) : Except TLSError (TLSConfig × DomainConfig × Nat) :=
  if serverName = "" then .error .missingServerName
  else
    match List.lookup (resolvedHandshakeDomain psl serverName) cfg.domains with
    | none => .error .unknownDomain
    | some domconf => refreshCert fs domconf

/-! ### Concrete fixtures used by the witnesses -/

/-- A public suffix list with the single rule `com`. -/
def pslCom : PSL := ⟨[["com"]]⟩

/-- A small filesystem: a site index page, one image, and a certificate. -/
def fsDemo : FileSystem where
  stat p :=
    if p = "/srv/www/pub/index.html" then .ok ⟨5, 86400, false⟩
    else if p = "/srv/www/pub/a.png" then .ok ⟨3, 4102444800, false⟩
    else if p = "/srv/cert.pem" then .ok ⟨100, 1000, false⟩
    else .error .notExist
  openOk _ := true
  content p := if p = "/srv/www/pub/index.html" then "hello" else "abc"
  loadKeyPair c k := if c = "/srv/cert.pem" ∧ k = "/srv/key.pem" then some 7 else none

def dcDemo : DomainConfig :=
  { basePath := "/srv", default := "www", subdir := "pub",
    certFile := "/srv/cert.pem", certTime := 0, certConfig := none,
    keyFile := "/srv/key.pem", indexFallback := true,
    backends := [("api", ⟨"http://127.0.0.1:9000", none, none⟩)] }

def cfgDemo : ServerConfig := ⟨443, 80, "", [("example.com", dcDemo)]⟩

def envDemo : Env := ⟨fun _ => true, .ok (200, "upstream")⟩

/-- `net/url.Parse` rejects a URL containing an ASCII control character
(`net/url: invalid control character in URL`) and accepts a plain
`http://host:port` target; this oracle models exactly that check. -/
def envCtlParse : Env :=
  ⟨fun s => !(s.data.any fun c => c.toNat < 32), .ok (200, "upstream")⟩

/-- An environment whose proxied round trip ends in a client cancellation,
which the repository's `ErrorHandler` suppresses without writing. -/
def envCanceled : Env := ⟨fun _ => true, .error ⟨true, "context canceled"⟩⟩

/-- `dcDemo` with a backend target that contains a control character, which
the real `url.Parse` rejects. -/
def dcCtl : DomainConfig :=
  { dcDemo with backends := [("api", ⟨"http://127.0.0.1:9000/\n", none, none⟩)] }

def cfgCtl : ServerConfig := ⟨443, 80, "", [("example.com", dcCtl)]⟩

/-- `dcDemo` after its certificate has been loaded against `fsDemo`. -/
def dcDemoLoaded : DomainConfig :=
  { dcDemo with certTime := 1000,
                certConfig := some ⟨[7], ["h2", "http/1.1"]⟩ }

/-! ### Claim theorems -/

/-- C8: a TLS handshake that presents an empty server name is answered with
an error and no TLS configuration, before any domain or certificate is
looked at. -/
theorem claim8_empty_server_name_rejected (cfg : ServerConfig) (psl : PSL)
    (fs : FileSystem) :
    getConfigForClient cfg psl fs "" = .error .missingServerName := rfl

/-- C9: the reverse-proxy error handler suppresses a client cancellation
(`context.Canceled`) — no response write and no log entry — and for any
other error logs exactly once and answers 502 with the generic body instead
of propagating. -/
theorem claim9_proxy_error_handler (target addr : String) (err : GoError)
    (w : Response) (logs : List String) :
    (err.isCanceled = true →
      proxyErrorHandler target addr err w logs = (w, logs)) ∧
    (err.isCanceled = false →
      (proxyErrorHandler target addr err w logs).1.statusWrites
          = w.statusWrites ++ [502] ∧
      (proxyErrorHandler target addr err w logs).1.body = w.body ++ proxyErrorBody ∧
      (proxyErrorHandler target addr err w logs).2
          = logs ++ ["[" ++ addr ++ "] " ++ target ++ " error: " ++ err.msg]) := by
  constructor
  · intro h
    simp [proxyErrorHandler, h]
  · intro h
    simp [proxyErrorHandler, h, Response.writeHeader, Response.write]

theorem claim9_witness :
    proxyErrorHandler "b" "a" ⟨true, "x"⟩ Response.empty [] = (Response.empty, []) ∧
    (proxyErrorHandler "b" "a" ⟨false, "x"⟩ Response.empty []).1.statusWrites
      = Response.empty.statusWrites ++ [502] :=
  ⟨(claim9_proxy_error_handler "b" "a" ⟨true, "x"⟩ Response.empty []).1 rfl,
   ((claim9_proxy_error_handler "b" "a" ⟨false, "x"⟩ Response.empty []).2 rfl).1⟩

/-- C3: a resolved registrable domain that is not a key of the configured
domain map fails closed on both paths: the HTTP dispatch answers 500 with
the generic body, resolves no file and proxies nothing, and the TLS
handshake callback returns an error that aborts the handshake. -/
theorem claim3_unknown_domain_fails_closed :
    (∀ env cfg psl fs hostHeader reqPath d s,
      parseRequest psl hostHeader = .ok (d, s) →
      List.lookup d cfg.domains = none →
      serveHTTP env cfg psl fs hostHeader reqPath
        = ⟨write500 Response.empty, 0, false⟩) ∧
    (∀ cfg psl fs serverName,
      serverName ≠ "" →
      List.lookup (resolvedHandshakeDomain psl serverName) cfg.domains = none →
      getConfigForClient cfg psl fs serverName = .error .unknownDomain) := by
  constructor
  · intro env cfg psl fs hostHeader reqPath d s hparse hlook
    simp [serveHTTP, hparse, hlook]
  · intro cfg psl fs sn hsn hlook
    simp [getConfigForClient, hsn, hlook]

theorem claim3_witness :
    serveHTTP envDemo cfgDemo pslCom fsDemo "x.other.com" "/"
        = ⟨write500 Response.empty, 0, false⟩ ∧
    getConfigForClient cfgDemo pslCom fsDemo "other.com" = .error .unknownDomain :=
  ⟨claim3_unknown_domain_fails_closed.1 envDemo cfgDemo pslCom fsDemo
      "x.other.com" "/" "other.com" "x" rfl rfl,
   claim3_unknown_domain_fails_closed.2 cfgDemo pslCom fsDemo "other.com"
      (by decide) rfl⟩

/-- The state a successful certificate-cache pass leaves behind: the new
configuration is cached, the certificate/key paths are untouched, and the
stored timestamp is not older than the certificate file. -/
theorem refreshCert_ok_state (fs : FileSystem) (dc : DomainConfig)
    (c : TLSConfig) (dc' : DomainConfig) (n : Nat)
    (h : refreshCert fs dc = .ok (c, dc', n)) :
    dc'.certConfig = some c ∧ dc'.certFile = dc.certFile ∧
    dc'.keyFile = dc.keyFile ∧
    ∃ info, fs.stat dc.certFile = .ok info ∧ ¬ dc'.certTime < info.modTime := by
  unfold refreshCert at h
  split at h
  · exact absurd h (by simp)
  · rename_i info hstat
    by_cases hstale : dc.certTime < info.modTime
    · simp only [if_pos hstale] at h
      split at h
      · exact absurd h (by simp)
      · rename_i cert hload
        simp only [Except.ok.injEq, Prod.mk.injEq] at h
        obtain ⟨hc, hdc, _⟩ := h
        subst hdc
        refine ⟨by simp [hc], by simp, by simp, info, hstat, by simp⟩
    · simp only [if_neg hstale] at h
      split at h
      · rename_i c0 hc0
        simp only [Except.ok.injEq, Prod.mk.injEq] at h
        obtain ⟨hc, hdc, _⟩ := h
        subst hdc
        exact ⟨by rw [hc0, hc], rfl, rfl, info, hstat, hstale⟩
      · split at h
        · exact absurd h (by simp)
        · rename_i cert hload
          simp only [Except.ok.injEq, Prod.mk.injEq] at h
          obtain ⟨hc, hdc, _⟩ := h
          subst hdc
          exact ⟨by simp [hc], rfl, rfl, info, hstat, hstale⟩

/-- C2: while the certificate file's modification time is unchanged the
cache answers a second consecutive handshake with the identical cached
configuration object, reloading nothing and leaving the state untouched;
a stored timestamp older than the file's modification time discards the
cached configuration, stores the file's time, and triggers exactly one
reload before the new object is reused. -/
theorem claim2_cert_cache (fs : FileSystem) (domconf : DomainConfig) :
    (∀ info c0, fs.stat domconf.certFile = .ok info →
      ¬ domconf.certTime < info.modTime → domconf.certConfig = some c0 →
      refreshCert fs domconf = .ok (c0, domconf, 0)) ∧
    (∀ c dc' n, refreshCert fs domconf = .ok (c, dc', n) →
      refreshCert fs dc' = .ok (c, dc', 0)) ∧
    (∀ info c dc' n, fs.stat domconf.certFile = .ok info →
      domconf.certTime < info.modTime →
      refreshCert fs domconf = .ok (c, dc', n) →
      n = 1 ∧ dc'.certTime = info.modTime ∧ dc'.certConfig = some c) := by
  refine ⟨?_, ?_, ?_⟩
  · intro info c0 hstat hfresh hcached
    unfold refreshCert
    rw [hstat]
    simp [if_neg hfresh, hcached]
  · intro c dc' n h
    obtain ⟨hcfg, hfile, _, info, hstat, hfresh⟩ :=
      refreshCert_ok_state fs domconf c dc' n h
    unfold refreshCert
    rw [hfile, hstat]
    simp [if_neg hfresh, hcfg]
  · intro info c dc' n hstat hstale h
    unfold refreshCert at h
    rw [hstat] at h
    simp only [if_pos hstale] at h
    split at h
    · exact absurd h (by simp)
    · rename_i cert hload
      simp only [Except.ok.injEq, Prod.mk.injEq] at h
      obtain ⟨hc, hdc, hn⟩ := h
      subst hdc
      exact ⟨hn.symm, rfl, by simp [hc]⟩

theorem empty_string_append (s : String) : "" ++ s = s := by
  apply String.ext
  simp [String.data_append]

/-- C7: a successfully served file is answered with `Content-Length` equal
to its byte size, `Last-Modified` formatted from its modification time,
`Content-Type` guessed from the extension and omitted when the table has no
mapping, and a body identical to the file's bytes.  `hsize` states the
filesystem consistency between `stat` and the file contents. -/
theorem claim7_served_file_response (fs : FileSystem) (dc : DomainConfig)
    (sub p : String) (info : FileInfo)
    (hstat : fs.stat (servePath dc sub p) = .ok info)
    (hdir : info.isDir = false)
    (hopen : fs.openOk (servePath dc sub p) = true)
    (hsize : (fs.content (servePath dc sub p)).length = info.size) :
    (serveFile fs dc sub Response.empty p).retry = false ∧
    (serveFile fs dc sub Response.empty p).response.statusWrites = [200] ∧
    (serveFile fs dc sub Response.empty p).response.body
        = fs.content (servePath dc sub p) ∧
    List.lookup "Content-Length" (serveFile fs dc sub Response.empty p).response.headers
        = some (toString (fs.content (servePath dc sub p)).length) ∧
    List.lookup "Last-Modified" (serveFile fs dc sub Response.empty p).response.headers
        = some (formatHTTPDate info.modTime) ∧
    (mimeTypeByExtension (filepathExt (servePath dc sub p)) = "" →
      List.lookup "Content-Type" (serveFile fs dc sub Response.empty p).response.headers
        = none) ∧
    (∀ ct, mimeTypeByExtension (filepathExt (servePath dc sub p)) = ct → ct ≠ "" →
      List.lookup "Content-Type" (serveFile fs dc sub Response.empty p).response.headers
        = some ct) := by
  by_cases hct : mimeTypeByExtension (filepathExt (servePath dc sub p)) = ""
  · simp [serveFile, hstat, hdir, hopen, hct, Response.setHeader, setHeaderList,
      Response.write, Response.empty, List.lookup, hsize]
  · simp [serveFile, hstat, hdir, hopen, hct, Response.setHeader, setHeaderList,
      Response.write, Response.empty, List.lookup, hsize]

theorem claim7_witness :
    (serveFile fsDemo dcDemo "www" Response.empty "/").response.body
        = fsDemo.content (servePath dcDemo "www" "/") ∧
    List.lookup "Content-Length"
        (serveFile fsDemo dcDemo "www" Response.empty "/").response.headers
      = some (toString (fsDemo.content (servePath dcDemo "www" "/")).length) :=
  ⟨(claim7_served_file_response fsDemo dcDemo "www" "/" ⟨5, 86400, false⟩
      rfl rfl rfl rfl).2.2.1,
   (claim7_served_file_response fsDemo dcDemo "www" "/" ⟨5, 86400, false⟩
      rfl rfl rfl rfl).2.2.2.1⟩

theorem splitCharList_no_sep (sep : Char) (a : List Char) (ha : sep ∉ a) :
    splitCharList sep a = [a] := by
  induction a with
  | nil => rfl
  | cons c a' ih =>
    have hc : c ≠ sep := fun h => ha (h ▸ List.mem_cons_self c a')
    have ha' : sep ∉ a' := fun h => ha (List.mem_cons.mpr (Or.inr h))
    simp only [splitCharList, ih ha']
    simp [hc]

theorem splitCharList_append_sep (sep : Char) (a b : List Char) (ha : sep ∉ a) :
    splitCharList sep (a ++ sep :: b) = a :: splitCharList sep b := by
  induction a with
  | nil =>
    simp only [List.nil_append, splitCharList]
    cases h : splitCharList sep b with
    | nil => exact absurd h (splitCharList_ne_nil sep b)
    | cons hd tl => simp
  | cons c a' ih =>
    have hc : c ≠ sep := fun h => ha (h ▸ List.mem_cons_self c a')
    have ha' : sep ∉ a' := fun h => ha (List.mem_cons.mpr (Or.inr h))
    simp only [List.cons_append, splitCharList, List.append_eq]
    rw [ih ha']
    simp [hc]

/-- `strings.Split(s, ":")[0]` leaves a colon-free host untouched. -/
theorem stripPort_no_colon (h : String) (hc : ':' ∉ h.data) : stripPort h = h := by
  simp only [stripPort, goSplit, splitCharList_no_sep ':' h.data hc, List.map]

/-- `strings.Split(s, ":")[0]` strips everything from the first colon. -/
theorem stripPort_strips_port (h p : String) (hc : ':' ∉ h.data) :
    stripPort (h ++ ":" ++ p) = h := by
  have hdata : (h ++ ":" ++ p).data = h.data ++ ':' :: p.data := by
    simp [String.data_append]
  simp only [stripPort, goSplit, hdata, splitCharList_append_sep ':' h.data p.data hc,
    List.map]

theorem goJoin_goSplit (sep : Char) (s : String) :
    goJoin sep (goSplit sep s) = s := by
  apply String.ext
  simp only [goJoin, goSplit, List.map_map]
  have hmap : (String.data ∘ fun l : List Char => (⟨l⟩ : String)) = id := by
    funext l
    rfl
  rw [hmap, List.map_id]
  exact joinSep_splitCharList sep s.data

theorem goJoin_append (sep : Char) (xs ys : List String)
    (hx : xs ≠ []) (hy : ys ≠ []) :
    goJoin sep (xs ++ ys)
      = goJoin sep xs ++ (⟨[sep]⟩ : String) ++ goJoin sep ys := by
  apply String.ext
  simp only [goJoin, String.data_append, List.map_append]
  rw [joinSep_append sep (xs.map String.data) (ys.map String.data)
    (by simp [hx]) (by simp [hy])]
  simp

/-- Inversion of a successful `effectiveTLDPlusOne`: the registrable domain
is the rejoined suffix of the host's labels starting at some label index. -/
theorem effectiveTLDPlusOne_ok (psl : PSL) (host d : String)
    (h : effectiveTLDPlusOne psl host = .ok d) :
    ∃ j, j < (goSplit '.' host).length ∧
      d = goJoin '.' ((goSplit '.' host).drop j) := by
  unfold effectiveTLDPlusOne at h
  simp only [] at h
  split at h
  · exact absurd h (by simp)
  · split at h
    · exact absurd h (by simp)
    · rename_i hlen
      simp only [Except.ok.injEq] at h
      refine ⟨(goSplit '.' host).length
          - (publicSuffixLabels psl (goSplit '.' host)).length - 1, ?_, h.symm⟩
      omega

/-- Inversion of a successful `parseRequest`. -/
theorem parseRequest_ok (psl : PSL) (hostHeader d s : String)
    (h : parseRequest psl hostHeader = .ok (d, s)) :
    effectiveTLDPlusOne psl (stripPort hostHeader) = .ok d ∧
    s = goTrimSuffix (goTrimSuffix (stripPort hostHeader) d) "." := by
  unfold parseRequest at h
  simp only [] at h
  split at h
  · exact absurd h (by simp)
  · rename_i d' heff
    simp only [Except.ok.injEq, Prod.mk.injEq] at h
    obtain ⟨h1, h2⟩ := h
    subst h1
    exact ⟨heff, h2.symm⟩

theorem splitCharList_cons_sep (sep : Char) (l : List Char) :
    splitCharList sep (sep :: l) = [] :: splitCharList sep l := by
  simp only [splitCharList]
  cases h : splitCharList sep l with
  | nil => exact absurd h (splitCharList_ne_nil sep l)
  | cons hd tl => simp

theorem splitCharList_joinSep (sep : Char) (parts : List (List Char))
    (hne : parts ≠ []) (hsep : ∀ p ∈ parts, sep ∉ p) :
    splitCharList sep (joinSep sep parts) = parts := by
  induction parts with
  | nil => exact absurd rfl hne
  | cons x xt ih =>
    cases xt with
    | nil =>
      simp only [joinSep]
      exact splitCharList_no_sep sep x (hsep x (List.mem_cons_self x []))
    | cons y yt =>
      have hx : sep ∉ x := hsep x (List.mem_cons_self x (y :: yt))
      have hrest : ∀ p ∈ y :: yt, sep ∉ p := fun p hp =>
        hsep p (List.mem_cons.mpr (Or.inr hp))
      simp only [joinSep]
      rw [splitCharList_append_sep sep x (joinSep sep (y :: yt)) hx]
      rw [ih (by simp) hrest]

theorem goSplit_goJoin (sep : Char) (parts : List String)
    (hne : parts ≠ []) (hsep : ∀ p ∈ parts, sep ∉ p.data) :
    goSplit sep (goJoin sep parts) = parts := by
  simp only [goSplit, goJoin]
  rw [splitCharList_joinSep sep (parts.map String.data) (by simp [hne])
    (by intro p hp
        obtain ⟨q, hq, rfl⟩ := List.mem_map.mp hp
        exact hsep q hq)]
  simp only [List.map_map]
  have hmap : ((fun l : List Char => (⟨l⟩ : String)) ∘ String.data) = id := by
    funext q
    rfl
  rw [hmap, List.map_id]

/-- A path element the `Clean` loop passes through unchanged. -/
def SegOK (s : String) : Prop := s ≠ "" ∧ s ≠ "." ∧ '/' ∉ s.data

/-- Invariant of the `cleanSegs` accumulator (the output stack in reverse):
all elements survive cleaning, the `..` entries sit at its end (the bottom
of the stack), and a rooted path has none. -/
def AccOK (rooted : Bool) (acc : List String) : Prop :=
  (∀ s ∈ acc, SegOK s) ∧
  ∃ front k, acc = front ++ List.replicate k ".." ∧
    (∀ s ∈ front, s ≠ "..") ∧ (rooted = true → k = 0)

/-- Invariant of a finished `cleanSegs` stack: all elements survive
cleaning, the `..` entries form a prefix, and a rooted path has none. -/
def StackOK (rooted : Bool) (st : List String) : Prop :=
  (∀ s ∈ st, SegOK s) ∧
  ∃ k rest, st = List.replicate k ".." ++ rest ∧
    (∀ s ∈ rest, s ≠ "..") ∧ (rooted = true → k = 0)

theorem stackOK_of_accOK (rooted : Bool) (acc : List String)
    (h : AccOK rooted acc) : StackOK rooted acc.reverse := by
  obtain ⟨hall, front, k, hacc, hfront, hk⟩ := h
  refine ⟨fun s hs => hall s (List.mem_reverse.mp hs), k, front.reverse, ?_, ?_, hk⟩
  · rw [hacc, List.reverse_append, List.reverse_replicate]
  · intro s hs
    exact hfront s (List.mem_reverse.mp hs)

theorem segOK_dotdot : SegOK ".." := by
  refine ⟨by decide, by decide, by decide⟩

/-- The `cleanSegs` loop preserves the accumulator invariant and therefore
its output satisfies the stack invariant. -/
theorem cleanSegs_stackOK (rooted : Bool) (segs : List String) :
    ∀ acc, (∀ s ∈ segs, '/' ∉ s.data) → AccOK rooted acc →
      StackOK rooted (cleanSegs rooted acc segs) := by
  induction segs with
  | nil =>
    intro acc _ hacc
    exact stackOK_of_accOK rooted acc hacc
  | cons seg rest ih =>
    intro acc hsegs hacc
    have hseg : '/' ∉ seg.data := hsegs seg (List.mem_cons_self seg rest)
    have hrest : ∀ s ∈ rest, '/' ∉ s.data := fun s hs =>
      hsegs s (List.mem_cons.mpr (Or.inr hs))
    by_cases h1 : seg = "" ∨ seg = "."
    · rw [show cleanSegs rooted acc (seg :: rest) = cleanSegs rooted acc rest by
        simp [cleanSegs, h1]]
      exact ih acc hrest hacc
    · push_neg at h1
      by_cases h2 : seg = ".."
      · subst h2
        obtain ⟨hall, front, k, hshape, hfront, hk⟩ := hacc
        cases acc with
        | nil =>
          cases rooted with
          | true =>
            rw [show cleanSegs true [] (".." :: rest) = cleanSegs true [] rest by
              simp [cleanSegs]]
            exact ih [] hrest ⟨by simp, [], 0, by simp, by simp, by simp⟩
          | false =>
            rw [show cleanSegs false [] (".." :: rest)
                = cleanSegs false [".."] rest by simp [cleanSegs]]
            refine ih [".."] hrest ⟨?_, [], 1, by simp, by simp, by simp⟩
            intro s hs
            rw [List.mem_singleton.mp hs]
            exact segOK_dotdot
        | cons top accTail =>
          by_cases h3 : top = ".."
          · subst h3
            have hfrontnil : front = [] := by
              cases hfc : front with
              | nil => rfl
              | cons f ft =>
                exfalso
                rw [hfc, List.cons_append] at hshape
                have hf : ".." = f := ((List.cons.injEq _ _ _ _).mp hshape).1
                exact hfront f (by rw [hfc]; exact List.mem_cons_self f ft) hf.symm
            rw [hfrontnil, List.nil_append] at hshape
            have hkpos : k ≠ 0 := by
              intro hk0
              rw [hk0] at hshape
              simp at hshape
            have hrooted : rooted = false := by
              cases rooted with
              | false => rfl
              | true => exact absurd (hk rfl) hkpos
            subst hrooted
            rw [show cleanSegs false (".." :: accTail) (".." :: rest)
                = cleanSegs false (".." :: ".." :: accTail) rest by
              simp [cleanSegs]]
            refine ih (".." :: ".." :: accTail) hrest
              ⟨?_, [], k + 1, ?_, by simp, by simp⟩
            · intro s hs
              rcases List.mem_cons.mp hs with rfl | hs
              · exact segOK_dotdot
              · exact hall s hs
            · rw [List.nil_append, List.replicate_succ, ← hshape]
          · rw [show cleanSegs rooted (top :: accTail) (".." :: rest)
                = cleanSegs rooted accTail rest by simp [cleanSegs, h3]]
            have hfrontcons : ∃ ft, front = top :: ft ∧
                accTail = ft ++ List.replicate k ".." := by
              cases hfc : front with
              | nil =>
                exfalso
                rw [hfc, List.nil_append] at hshape
                cases k with
                | zero => simp at hshape
                | succ k' =>
                  rw [List.replicate_succ] at hshape
                  exact h3 ((List.cons.injEq _ _ _ _).mp hshape).1
              | cons f ft =>
                rw [hfc, List.cons_append] at hshape
                obtain ⟨hf, hshape'⟩ := (List.cons.injEq _ _ _ _).mp hshape
                exact ⟨ft, by rw [hf], hshape'⟩
            obtain ⟨ft, hfc, hshape'⟩ := hfrontcons
            refine ih accTail hrest ⟨?_, ft, k, hshape', ?_, hk⟩
            · intro s hs
              exact hall s (List.mem_cons.mpr (Or.inr hs))
            · intro s hs
              exact hfront s (by rw [hfc]; exact List.mem_cons.mpr (Or.inr hs))
      · rw [show cleanSegs rooted acc (seg :: rest)
            = cleanSegs rooted (seg :: acc) rest by
          simp [cleanSegs, h1.1, h1.2, h2]]
        obtain ⟨hall, front, k, hshape, hfront, hk⟩ := hacc
        refine ih (seg :: acc) hrest ⟨?_, seg :: front, k, ?_, ?_, hk⟩
        · intro s hs
          rcases List.mem_cons.mp hs with rfl | hs
          · exact ⟨h1.1, h1.2, hseg⟩
          · exact hall s hs
        · rw [hshape, List.cons_append]
        · intro s hs
          rcases List.mem_cons.mp hs with rfl | hs
          · exact h2
          · exact hfront s hs

/-- `cleanSegs` pushes a run of plain elements unchanged. -/
theorem cleanSegs_plain (rooted : Bool) (segs : List String) :
    ∀ acc, (∀ s ∈ segs, s ≠ "" ∧ s ≠ "." ∧ s ≠ "..") →
      cleanSegs rooted acc segs = acc.reverse ++ segs := by
  induction segs with
  | nil =>
    intro acc _
    simp [cleanSegs]
  | cons seg rest ih =>
    intro acc h
    have hseg := h seg (List.mem_cons_self seg rest)
    have hrest : ∀ s ∈ rest, s ≠ "" ∧ s ≠ "." ∧ s ≠ ".." := fun s hs =>
      h s (List.mem_cons.mpr (Or.inr hs))
    rw [show cleanSegs rooted acc (seg :: rest)
        = cleanSegs rooted (seg :: acc) rest by
      simp [cleanSegs, hseg.1, hseg.2.1, hseg.2.2]]
    rw [ih (seg :: acc) hrest]
    simp

/-- On a non-rooted path `cleanSegs` keeps a leading run of `..` elements. -/
theorem cleanSegs_dotdot_prefix (rest : List String)
    (hrest : ∀ s ∈ rest, s ≠ "" ∧ s ≠ "." ∧ s ≠ "..") :
    ∀ k j, cleanSegs false (List.replicate j "..")
        (List.replicate k ".." ++ rest)
      = List.replicate (j + k) ".." ++ rest := by
  intro k
  induction k with
  | zero =>
    intro j
    simp only [List.replicate, List.nil_append, Nat.add_zero]
    rw [cleanSegs_plain false rest (List.replicate j "..") hrest]
    rw [List.reverse_replicate]
  | succ k' ih =>
    intro j
    rw [List.replicate_succ, List.cons_append]
    rw [show cleanSegs false (List.replicate j "..")
        (".." :: (List.replicate k' ".." ++ rest))
        = cleanSegs false (List.replicate (j + 1) "..")
            (List.replicate k' ".." ++ rest) by
      cases j with
      | zero => simp [cleanSegs]
      | succ j' => simp [cleanSegs, List.replicate_succ]]
    rw [ih (j + 1)]
    congr 2
    omega

/-- A stack satisfying the invariant is a fixed point of `cleanSegs`. -/
theorem cleanSegs_fixpoint (rooted : Bool) (st : List String)
    (h : StackOK rooted st) : cleanSegs rooted [] st = st := by
  obtain ⟨hall, k, rest, hshape, hrest, hk⟩ := h
  have hrest' : ∀ s ∈ rest, s ≠ "" ∧ s ≠ "." ∧ s ≠ ".." := by
    intro s hs
    have hOK := hall s (by rw [hshape]; exact List.mem_append_right _ hs)
    exact ⟨hOK.1, hOK.2.1, hrest s hs⟩
  cases rooted with
  | true =>
    rw [hshape, hk rfl]
    simp only [List.replicate, List.nil_append]
    rw [cleanSegs_plain true rest [] hrest']
    simp
  | false =>
    rw [hshape]
    have := cleanSegs_dotdot_prefix rest hrest' k 0
    simpa using this

theorem isRooted_iff_head (s : String) :
    isRooted s = true ↔ s.data.head? = some '/' := by
  unfold isRooted
  split
  · rename_i heq
    simp [heq]
  · rename_i c cs heq
    simp [heq, decide_eq_true_eq]

theorem goJoin_head (s0 : String) (st' : List String) (h0 : s0.data ≠ []) :
    (goJoin '/' (s0 :: st')).data.head? = s0.data.head? := by
  simp only [goJoin]
  cases st' with
  | nil => simp [joinSep]
  | cons y yt =>
    cases hd : s0.data with
    | nil => exact absurd hd h0
    | cons c cs => simp [joinSep, hd]

theorem isRooted_slash_append (x : String) : isRooted ("/" ++ x) = true := by
  have hd : ("/" ++ x).data = '/' :: x.data := by
    rw [String.data_append]
    rfl
  unfold isRooted
  rw [hd]
  simp

theorem goSplit_slash_append (x : String) :
    goSplit '/' ("/" ++ x) = "" :: goSplit '/' x := by
  have hd : ("/" ++ x).data = '/' :: x.data := by
    rw [String.data_append]
    rfl
  simp only [goSplit, hd, splitCharList_cons_sep]
  rfl

/-- Go `filepath.Clean` is idempotent: cleaning an already-cleaned path
changes nothing. -/
theorem filepathClean_idem (p : String) :
    filepathClean (filepathClean p) = filepathClean p := by
  have hsegs : ∀ s ∈ goSplit '/' p, '/' ∉ s.data := by
    intro s hs
    simp only [goSplit] at hs
    obtain ⟨l, hl, rfl⟩ := List.mem_map.mp hs
    exact mem_splitCharList_not_mem '/' p.data l hl
  have hOK : StackOK (isRooted p) (cleanSegs (isRooted p) [] (goSplit '/' p)) :=
    cleanSegs_stackOK (isRooted p) (goSplit '/' p) [] hsegs
      ⟨by simp, [], 0, by simp, by simp, by simp⟩
  cases hst : cleanSegs (isRooted p) [] (goSplit '/' p) with
  | nil =>
    have h1 : filepathClean p = (if isRooted p then "/" else ".") := by
      simp only [filepathClean, hst]
    rw [h1]
    cases isRooted p with
    | true => rfl
    | false => rfl
  | cons s0 st' =>
    have hstOK : StackOK (isRooted p) (s0 :: st') := hst ▸ hOK
    have hall := hstOK.1
    have hs0 : SegOK s0 := hall s0 (List.mem_cons_self _ _)
    have hs0ne : s0.data ≠ [] := by
      intro hnil
      exact hs0.1 (String.ext hnil)
    have hslashfree : ∀ s ∈ s0 :: st', '/' ∉ s.data := fun s hs => (hall s hs).2.2
    have hsplit2 : goSplit '/' (goJoin '/' (s0 :: st')) = s0 :: st' :=
      goSplit_goJoin '/' (s0 :: st') (by simp) hslashfree
    have hroot2 : isRooted (goJoin '/' (s0 :: st')) = false := by
      cases hv : isRooted (goJoin '/' (s0 :: st')) with
      | false => rfl
      | true =>
        exfalso
        have hhead := (isRooted_iff_head _).mp hv
        rw [goJoin_head s0 st' hs0ne] at hhead
        have : '/' ∈ s0.data := by
          cases hd : s0.data with
          | nil => exact absurd hd hs0ne
          | cons c cs =>
            rw [hd] at hhead
            simp at hhead
            rw [hhead]
            exact List.mem_cons_self _ _
        exact hs0.2.2 this
    cases hr : isRooted p with
    | false =>
      rw [hr] at hst hstOK
      have h1 : filepathClean p = goJoin '/' (s0 :: st') := by
        simp only [filepathClean, hr, hst]
        exact empty_string_append _
      rw [h1]
      simp only [filepathClean, hroot2, hsplit2,
        cleanSegs_fixpoint false (s0 :: st') hstOK]
      exact empty_string_append _
    | true =>
      rw [hr] at hst hstOK
      have h1 : filepathClean p = "/" ++ goJoin '/' (s0 :: st') := by
        simp only [filepathClean, hr, hst]
        simp
      rw [h1]
      have hsp : goSplit '/' ("/" ++ goJoin '/' (s0 :: st'))
          = "" :: s0 :: st' := by
        rw [goSplit_slash_append, hsplit2]
      have hclean : cleanSegs true [] ("" :: s0 :: st') = s0 :: st' := by
        rw [show cleanSegs true [] ("" :: s0 :: st')
            = cleanSegs true [] (s0 :: st') by simp [cleanSegs]]
        exact cleanSegs_fixpoint true (s0 :: st') hstOK
      simp only [filepathClean, isRooted_slash_append, hsp, hclean]
      simp

theorem goTrimSuffix_self (s : String) : goTrimSuffix s s = "" := by
  have h : goHasSuffix s s = true := by
    simp [goHasSuffix, List.isSuffixOf_iff_suffix]
  simp only [goTrimSuffix, h, if_pos]
  apply String.ext
  simp

/-- C4: the host resolver strips the port suffix from the host header,
splits the rest into registrable domain and subdomain — everything before
the domain minus a trailing dot, possibly empty — resolves
`foo.example.com:8443` to domain `example.com` and subdomain `foo`, and
propagates a public-suffix-list failure as an error. -/
theorem claim4_host_resolver :
    (∀ h p : String, ':' ∉ h.data → stripPort (h ++ ":" ++ p) = h) ∧
    (∀ psl hostHeader d s, parseRequest psl hostHeader = .ok (d, s) →
      (s = "" ∧ stripPort hostHeader = d) ∨
        stripPort hostHeader = s ++ "." ++ d) ∧
    parseRequest pslCom "foo.example.com:8443" = .ok ("example.com", "foo") ∧
    (∀ psl hostHeader e,
      effectiveTLDPlusOne psl (stripPort hostHeader) = .error e →
      ∃ e', parseRequest psl hostHeader = .error e') := by
  refine ⟨stripPort_strips_port, ?_, rfl, ?_⟩
  · intro psl hh d s hp
    obtain ⟨heff, hs⟩ := parseRequest_ok psl hh d s hp
    obtain ⟨j, hj, hd⟩ := effectiveTLDPlusOne_ok psl (stripPort hh) d heff
    by_cases hj0 : j = 0
    · left
      subst hj0
      rw [List.drop_zero] at hd
      have hhost : stripPort hh = d := by
        rw [hd, goJoin_goSplit]
      refine ⟨?_, hhost⟩
      rw [hs, hhost, goTrimSuffix_self]
      rfl
    · right
      have hlt : 0 < j := Nat.pos_of_ne_zero hj0
      have htake : (goSplit '.' (stripPort hh)).take j ≠ [] := by
        apply List.ne_nil_of_length_pos
        rw [List.length_take]
        omega
      have hdrop : (goSplit '.' (stripPort hh)).drop j ≠ [] := by
        apply List.ne_nil_of_length_pos
        rw [List.length_drop]
        omega
      have hdot : (⟨['.']⟩ : String) = "." := rfl
      have hsplitjoin : stripPort hh
          = goJoin '.' ((goSplit '.' (stripPort hh)).take j) ++ "." ++ d := by
        conv_lhs => rw [← goJoin_goSplit '.' (stripPort hh),
          ← List.take_append_drop j (goSplit '.' (stripPort hh))]
        rw [goJoin_append '.' _ _ htake hdrop, hdot, hd]
      rw [hs, hsplitjoin,
        goTrimSuffix_append (goJoin '.' ((goSplit '.' (stripPort hh)).take j) ++ ".") d,
        goTrimSuffix_append (goJoin '.' ((goSplit '.' (stripPort hh)).take j)) "."]
  · intro psl hh e herr
    refine ⟨"could not parse request into pieces: " ++ e, ?_⟩
    unfold parseRequest
    simp only [herr]

theorem claim4_witness :
    stripPort ("foo.example.com" ++ ":" ++ "8443") = "foo.example.com" ∧
    (("foo" = "" ∧ stripPort "foo.example.com:8443" = "example.com") ∨
      stripPort "foo.example.com:8443" = "foo" ++ "." ++ "example.com") :=
  ⟨claim4_host_resolver.1 "foo.example.com" "8443" (by decide),
   claim4_host_resolver.2.1 pslCom "foo.example.com:8443" "example.com" "foo" rfl⟩

theorem goJoin_four (a b c d : String) :
    goJoin '/' [a, b, c, d] = a ++ "/" ++ b ++ "/" ++ c ++ "/" ++ d := by
  apply String.ext
  simp only [goJoin, List.map, joinSep, String.data_append]
  simp

/-- C6: for base path `B`, subdomain `sub`, subdirectory `S` and request
path `P`, the candidate served path is the normalized join `B/sub/S/P`,
where a trailing-slash request path gets `index.html` appended exactly once
before joining.  (`B ≠ ""`: with an empty base path Go's `Join` would drop
the leading element instead of contributing a root.) -/
theorem claim6_candidate_path (dc : DomainConfig) (sub p : String)
    (hB : dc.basePath ≠ "") :
    servePath dc sub p
      = filepathClean (dc.basePath ++ "/" ++ sub ++ "/" ++ dc.subdir ++ "/" ++
          (if goHasSuffix p "/" then p ++ "index.html" else p)) ∧
    (goHasSuffix p "/" = true →
      (if goHasSuffix p "/" then p ++ "index.html" else p) = p ++ "index.html") ∧
    (goHasSuffix p "/" = false →
      (if goHasSuffix p "/" then p ++ "index.html" else p) = p) := by
  refine ⟨?_, fun h => by rw [h]; simp, fun h => by rw [h]; simp⟩
  show filepathClean (filepathJoin [dc.basePath, sub, dc.subdir,
      if goHasSuffix p "/" then p ++ "index.html" else p]) = _
  rw [show filepathJoin [dc.basePath, sub, dc.subdir,
      if goHasSuffix p "/" then p ++ "index.html" else p]
    = filepathClean (goJoin '/' [dc.basePath, sub, dc.subdir,
        if goHasSuffix p "/" then p ++ "index.html" else p]) by
    simp [filepathJoin, List.dropWhile, hB]]
  rw [goJoin_four, filepathClean_idem]

theorem claim6_witness :
    servePath dcDemo "www" "/dir/"
      = filepathClean ("/srv" ++ "/" ++ "www" ++ "/" ++ "pub" ++ "/" ++
          (if goHasSuffix "/dir/" "/" then "/dir/" ++ "index.html" else "/dir/")) ∧
    (if goHasSuffix "/dir/" "/" then "/dir/" ++ "index.html" else "/dir/")
      = "/dir/" ++ "index.html" :=
  ⟨(claim6_candidate_path dcDemo "www" "/dir/" (by decide)).1,
   (claim6_candidate_path dcDemo "www" "/dir/" (by decide)).2.1 rfl⟩

/-- Exhaustive shape of one `serveFile` call: either it returns
`retry = false`, or it took the index-fallback branch — response untouched,
path rewritten to the parent directory's `index.html` — which requires the
fallback flag, a missing candidate, and a request path not already ending
in `/index.html`. -/
theorem serveFile_cases (fs : FileSystem) (dc : DomainConfig) (sub : String)
    (w : Response) (p : String) :
    (serveFile fs dc sub w p).retry = false ∨
    (serveFile fs dc sub w p = ⟨w, true, filepathDir p ++ "/index.html"⟩ ∧
      dc.indexFallback = true ∧
      fs.stat (servePath dc sub p) = .error .notExist ∧
      goHasSuffix p "/index.html" = false) := by
  cases hstat : fs.stat (servePath dc sub p) with
  | error e =>
    cases e with
    | notExist =>
      by_cases hfb : dc.indexFallback = true
      · by_cases hsuf : goHasSuffix p "/index.html" = true
        · left
          simp [serveFile, hstat, hfb, hsuf]
        · right
          refine ⟨?_, hfb, hstat ▸ rfl, by simp at hsuf; exact hsuf⟩
          simp only [serveFile, hstat, hfb, if_true]
          simp [hsuf]
      · left
        simp [serveFile, hstat, hfb]
    | ioError =>
      left
      simp [serveFile, hstat]
  | ok info =>
    left
    by_cases hdir : info.isDir = true
    · cases hstat2 : fs.stat (servePath dc sub p ++ "/index.html") with
      | error e2 => simp [serveFile, hstat, hdir, hstat2]
      | ok info2 =>
        by_cases hopen : fs.openOk (servePath dc sub p ++ "/index.html") = true
        · simp [serveFile, hstat, hdir, hstat2, hopen]
        · simp [serveFile, hstat, hdir, hstat2, hopen]
    · by_cases hopen : fs.openOk (servePath dc sub p) = true
      · simp [serveFile, hstat, hdir, hopen]
      · simp [serveFile, hstat, hdir, hopen]

/-- A `serveFile` call that does not signal a retry commits exactly one
status code, starting from a response with none. -/
theorem serveFile_one_status (fs : FileSystem) (dc : DomainConfig)
    (sub : String) (w : Response) (p : String) (hw : w.statusWrites = [])
    (h : (serveFile fs dc sub w p).retry = false) :
    (serveFile fs dc sub w p).response.statusWrites.length = 1 := by
  cases hstat : fs.stat (servePath dc sub p) with
  | error e =>
    cases e with
    | notExist =>
      by_cases hfb : dc.indexFallback = true
      · by_cases hsuf : goHasSuffix p "/index.html" = true
        · simp [serveFile, hstat, hfb, hsuf, write404, Response.writeHeader,
            Response.write, hw]
        · simp [serveFile, hstat, hfb, hsuf] at h
      · simp [serveFile, hstat, hfb, write404, Response.writeHeader,
          Response.write, hw]
    | ioError =>
      simp [serveFile, hstat, write404, Response.writeHeader, Response.write, hw]
  | ok info =>
    by_cases hdir : info.isDir = true
    · cases hstat2 : fs.stat (servePath dc sub p ++ "/index.html") with
      | error e2 =>
        simp [serveFile, hstat, hdir, hstat2, write404, Response.writeHeader,
          Response.write, hw]
      | ok info2 =>
        by_cases hopen : fs.openOk (servePath dc sub p ++ "/index.html") = true
        · simp [serveFile, hstat, hdir, hstat2, hopen, Response.setHeader,
            Response.write, hw]
          split <;> simp [hw]
        · simp [serveFile, hstat, hdir, hstat2, hopen, Response.writeHeader,
            Response.write, hw]
    · by_cases hopen : fs.openOk (servePath dc sub p) = true
      · simp [serveFile, hstat, hdir, hopen, Response.setHeader,
          Response.write, hw]
        split <;> simp [hw]
      · simp [serveFile, hstat, hdir, hopen, Response.writeHeader,
          Response.write, hw]

/-- C1: the dispatcher runs the file resolver at most twice per request; a
retry signal always rewrites the path to one ending in `/index.html`; and a
request whose path already ends in `/index.html` whose candidate file does
not exist is answered 404 with the path left unrewritten and no further
retry. -/
theorem claim1_index_fallback_bounded :
    (∀ fs dc sub w p, (serveFileDispatch fs dc sub w p).2 ≤ 2) ∧
    (∀ fs dc sub w p, (serveFile fs dc sub w p).retry = true →
      goHasSuffix (serveFile fs dc sub w p).reqPath "/index.html" = true) ∧
    (∀ fs dc sub w p, goHasSuffix p "/index.html" = true →
      fs.stat (servePath dc sub p) = .error .notExist →
      serveFile fs dc sub w p = ⟨write404 w, false, p⟩) := by
  refine ⟨?_, ?_, ?_⟩
  · intro fs dc sub w p
    simp only [serveFileDispatch]
    split <;> simp
  · intro fs dc sub w p hretry
    rcases serveFile_cases fs dc sub w p with h | ⟨heq, _⟩
    · rw [h] at hretry
      cases hretry
    · rw [heq]
      exact goHasSuffix_append (filepathDir p) "/index.html"
  · intro fs dc sub w p hsuf hstat
    by_cases hfb : dc.indexFallback = true
    · simp [serveFile, hstat, hfb, hsuf]
    · simp [serveFile, hstat, hfb]

theorem claim1_witness :
    (serveFileDispatch fsDemo dcDemo "www" Response.empty "/nope/x.png").2 ≤ 2 ∧
    goHasSuffix
      (serveFile fsDemo dcDemo "www" Response.empty "/nope/x.png").reqPath
      "/index.html" = true ∧
    serveFile fsDemo dcDemo "www" Response.empty "/zzz/index.html"
      = ⟨write404 Response.empty, false, "/zzz/index.html"⟩ :=
  ⟨claim1_index_fallback_bounded.1 fsDemo dcDemo "www" Response.empty "/nope/x.png",
   claim1_index_fallback_bounded.2.1 fsDemo dcDemo "www" Response.empty
     "/nope/x.png" rfl,
   claim1_index_fallback_bounded.2.2 fsDemo dcDemo "www" Response.empty
     "/zzz/index.html" rfl rfl⟩

/-- A proxied dispatch commits exactly `proxyWriteCount env` status codes
when handed a response with none. -/
theorem proxyServe_statusWrites (env : Env) (target : String) (w : Response)
    (hw : w.statusWrites = []) :
    (proxyServe env target w).statusWrites.length = proxyWriteCount env := by
  unfold proxyServe proxyWriteCount
  cases env.proxyOutcome with
  | ok sb =>
    obtain ⟨s, b⟩ := sb
    simp [Response.writeHeader, Response.write, hw]
  | error err =>
    by_cases hc : err.isCanceled = true
    · simp [proxyErrorHandler, hc, hw]
    · simp [proxyErrorHandler, hc, Response.writeHeader, Response.write, hw]

/-- Status-write count of a whole dispatch: one, except a proxied dispatch
which commits `proxyWriteCount env` (zero on a cancelled round trip). -/
theorem serveHTTP_status_count (env : Env) (cfg : ServerConfig) (psl : PSL)
    (fs : FileSystem) (hostHeader reqPath : String) :
    (serveHTTP env cfg psl fs hostHeader reqPath).response.statusWrites.length
      = if (serveHTTP env cfg psl fs hostHeader reqPath).proxied = true
          then proxyWriteCount env else 1 := by
  unfold serveHTTP
  cases hparse : parseRequest psl hostHeader with
  | error e =>
    simp [write500, Response.writeHeader, Response.write, Response.empty]
  | ok ds =>
    obtain ⟨d, s0⟩ := ds
    cases hdom : List.lookup d cfg.domains with
    | none =>
      simp [hdom, write500, Response.writeHeader, Response.write,
        Response.empty]
    | some dc =>
      simp only [hdom]
      set sub := if s0 = "" then dc.default else s0 with hsub
      cases hb : List.lookup sub dc.backends with
      | some b =>
        by_cases hrp : b.reverseProxy.isSome = true
        · simp only [handoff, hb, hrp]
          simp
          exact proxyServe_statusWrites env b.target Response.empty rfl
        · by_cases hurl : (b.url.isSome || env.urlParse b.target) = true
          · simp only [handoff, hb, hrp, hurl]
            simp [hrp, hurl]
            exact proxyServe_statusWrites env b.target Response.empty rfl
          · simp [handoff, hb, hrp, hurl, write500, Response.writeHeader,
              Response.write, Response.empty]
      | none =>
        simp only [handoff, hb]
        simp only [serveFileDispatch]
        rcases serveFile_cases fs dc sub Response.empty reqPath with h1 | ⟨heq, _⟩
        · simp [h1]
          exact serveFile_one_status fs dc sub Response.empty reqPath rfl h1
        · rw [heq]
          have hsuf : goHasSuffix (filepathDir reqPath ++ "/index.html")
              "/index.html" = true :=
            goHasSuffix_append (filepathDir reqPath) "/index.html"
          have h2 : (serveFile fs dc sub Response.empty
              (filepathDir reqPath ++ "/index.html")).retry = false := by
            rcases serveFile_cases fs dc sub Response.empty
                (filepathDir reqPath ++ "/index.html") with h2 | ⟨_, _, _, hns⟩
            · exact h2
            · rw [hsuf] at hns
              cases hns
          simp only [h2]
          simp
          exact serveFile_one_status fs dc sub Response.empty
            (filepathDir reqPath ++ "/index.html") rfl h2

/-- C10 counterexample: a proxied request whose round trip ends in a client
cancellation writes zero status codes — the repository's `ErrorHandler`
returns without writing — so a dispatched request does not always write
exactly one status. -/
theorem claim10_counterexample :
    (serveHTTP envCanceled cfgDemo pslCom fsDemo "api.example.com" "/x").proxied
      = true ∧
    (serveHTTP envCanceled cfgDemo pslCom fsDemo "api.example.com" "/x").response.statusWrites
      = [] := ⟨rfl, rfl⟩

/-- C10 (amended): the file resolver signals a retry only having written
neither a status nor a body nor a header — the response is exactly the one
it was handed; across a whole dispatch at most one status code is written,
exactly one whenever the request is not proxied, and a proxied request
writes one status unless its round trip is cancelled by the client, in
which case it writes none. -/
theorem claim10_single_status_write :
    (∀ fs dc sub w p, (serveFile fs dc sub w p).retry = true →
      (serveFile fs dc sub w p).response = w) ∧
    (∀ env cfg psl fs hostHeader reqPath,
      (serveHTTP env cfg psl fs hostHeader reqPath).response.statusWrites.length
        ≤ 1) ∧
    (∀ env cfg psl fs hostHeader reqPath,
      (serveHTTP env cfg psl fs hostHeader reqPath).proxied = false →
      (serveHTTP env cfg psl fs hostHeader reqPath).response.statusWrites.length
        = 1) ∧
    (∀ env cfg psl fs hostHeader reqPath,
      (serveHTTP env cfg psl fs hostHeader reqPath).proxied = true →
      (serveHTTP env cfg psl fs hostHeader reqPath).response.statusWrites.length
        = proxyWriteCount env) := by
  refine ⟨?_, ?_, ?_, ?_⟩
  · intro fs dc sub w p hretry
    rcases serveFile_cases fs dc sub w p with h | ⟨heq, _⟩
    · rw [h] at hretry
      cases hretry
    · rw [heq]
  · intro env cfg psl fs hostHeader reqPath
    rw [serveHTTP_status_count]
    split
    · unfold proxyWriteCount
      cases env.proxyOutcome with
      | ok sb => exact le_refl 1
      | error err =>
        by_cases hc : err.isCanceled = true <;> simp [hc]
    · exact le_refl 1
  · intro env cfg psl fs hostHeader reqPath h
    rw [serveHTTP_status_count, h]
    simp
  · intro env cfg psl fs hostHeader reqPath h
    rw [serveHTTP_status_count, h]
    simp

theorem claim10_witness :
    (serveFile fsDemo dcDemo "www" Response.empty "/nope/x.png").response
      = Response.empty ∧
    (serveHTTP envDemo cfgDemo pslCom fsDemo "example.com" "/").response.statusWrites.length
      = 1 ∧
    (serveHTTP envDemo cfgDemo pslCom fsDemo "api.example.com" "/x").response.statusWrites.length
      = proxyWriteCount envDemo :=
  ⟨claim10_single_status_write.1 fsDemo dcDemo "www" Response.empty
     "/nope/x.png" rfl,
   claim10_single_status_write.2.2.1 envDemo cfgDemo pslCom fsDemo
     "example.com" "/" rfl,
   claim10_single_status_write.2.2.2 envDemo cfgDemo pslCom fsDemo
     "api.example.com" "/x" rfl⟩

/-- C5 counterexample: subdomain `api` is in the backend map, but its
target carries a control character, which `url.Parse` rejects (the oracle
accepts the plain target, matching the real parser); with no cached handle
the request is answered 500 — not handed to the reverse proxy, though also
never filesystem-resolved. -/
theorem claim5_counterexample :
    List.lookup "api" dcCtl.backends
      = some ⟨"http://127.0.0.1:9000/\n", none, none⟩ ∧
    envCtlParse.urlParse "http://127.0.0.1:9000/\n" = false ∧
    envCtlParse.urlParse "http://127.0.0.1:9000" = true ∧
    parseRequest pslCom "api.example.com" = .ok ("example.com", "api") ∧
    (serveHTTP envCtlParse cfgCtl pslCom fsDemo "api.example.com" "/x").proxied
      = false ∧
    (serveHTTP envCtlParse cfgCtl pslCom fsDemo "api.example.com" "/x").response.statusWrites
      = [500] := by
  refine ⟨by decide, by decide, by decide, rfl, rfl, rfl⟩

/-- C5 (amended): a request whose effective subdomain is a key of the
domain's backend map never invokes the file resolver; it is handed to the
reverse proxy whenever a proxy handle is cached or the backend URL is
available (cached or parseable), and is answered 500 when proxy creation
fails. -/
theorem claim5_backend_dispatch (env : Env) (cfg : ServerConfig) (psl : PSL)
    (fs : FileSystem) (hostHeader reqPath d s0 : String) (dc : DomainConfig)
    (b : BackendConfig)
    (hparse : parseRequest psl hostHeader = .ok (d, s0))
    (hdom : List.lookup d cfg.domains = some dc)
    (hb : List.lookup (if s0 = "" then dc.default else s0) dc.backends = some b) :
    (serveHTTP env cfg psl fs hostHeader reqPath).fileResolverCalls = 0 ∧
    ((b.reverseProxy.isSome || b.url.isSome || env.urlParse b.target) = true →
      serveHTTP env cfg psl fs hostHeader reqPath
        = ⟨proxyServe env b.target Response.empty, 0, true⟩) ∧
    ((b.reverseProxy.isSome || b.url.isSome || env.urlParse b.target) = false →
      serveHTTP env cfg psl fs hostHeader reqPath
        = ⟨write500 Response.empty, 0, false⟩) := by
  unfold serveHTTP
  rw [hparse]
  simp only [hdom]
  by_cases hrp : b.reverseProxy.isSome = true
  · simp [handoff, hb, hrp]
  · by_cases hurl : (b.url.isSome || env.urlParse b.target) = true
    · simp [handoff, hb, hrp, hurl]
    · simp [handoff, hb, hrp, hurl]

theorem claim5_witness :
    (serveHTTP envCtlParse cfgDemo pslCom fsDemo "api.example.com" "/x").fileResolverCalls
      = 0 ∧
    serveHTTP envCtlParse cfgDemo pslCom fsDemo "api.example.com" "/x"
      = ⟨proxyServe envCtlParse "http://127.0.0.1:9000" Response.empty, 0, true⟩ :=
  ⟨(claim5_backend_dispatch envCtlParse cfgDemo pslCom fsDemo "api.example.com"
      "/x" "example.com" "api" dcDemo ⟨"http://127.0.0.1:9000", none, none⟩
      rfl rfl rfl).1,
   (claim5_backend_dispatch envCtlParse cfgDemo pslCom fsDemo "api.example.com"
      "/x" "example.com" "api" dcDemo ⟨"http://127.0.0.1:9000", none, none⟩
      rfl rfl rfl).2.1 (by decide)⟩

theorem claim2_witness :
    refreshCert fsDemo dcDemoLoaded
      = .ok (⟨[7], ["h2", "http/1.1"]⟩, dcDemoLoaded, 0) ∧
    (1 = 1 ∧ dcDemoLoaded.certTime = 1000 ∧
      dcDemoLoaded.certConfig = some ⟨[7], ["h2", "http/1.1"]⟩) :=
  ⟨(claim2_cert_cache fsDemo dcDemo).2.1 ⟨[7], ["h2", "http/1.1"]⟩
      dcDemoLoaded 1 rfl,
   (claim2_cert_cache fsDemo dcDemo).2.2 ⟨100, 1000, false⟩
      ⟨[7], ["h2", "http/1.1"]⟩ dcDemoLoaded 1 rfl (by decide) rfl⟩

end Tjenare
